import Mathlib

/-!
Verification of the wine-quality prediction service
(backend/app/services/ml_service.py and backend/app/utils/validators.py).

The inference code is shallowly embedded: Python dynamic values are modelled
by the inductive type PyVal, floats by PyFloat (finite rational, nan, inf),
and the estimator/scaler artifacts are abstracted by the values they return
on the single processed input row, since every claim is about the
normalization logic that runs after the model call.
-/

namespace WinePred

/-- Python-style dynamic value: int, finite float, nan, inf, str, or some
other non-numeric object. Used for feature values and class labels. -/
inductive PyVal where
  | pint (i : ℤ)
  | pfloat (q : ℚ)
  | pnan
  | pinf
  | pstr (s : String)
  | pnone
deriving DecidableEq, Repr

/-- Python float value as produced by float(...): finite, nan, or signed
infinity. -/
inductive PyFloat where
  | fin (q : ℚ)
  | nan
  | inf
  | ninf
deriving DecidableEq, Repr

/-- Numeric value of a digit character. -/
def digitVal (c : Char) : ℕ := c.toNat - 48

/-- Value of a digit string read in base 10. -/
def digitsVal (l : List Char) : ℕ := l.foldl (fun n c => 10 * n + digitVal c) 0

/-- True when every character is a decimal digit. -/
def allDigits (l : List Char) : Bool := l.all Char.isDigit

/-- Removal of leading and trailing whitespace, as Python number parsing
strips it. -/
def trimChars (l : List Char) : List Char :=
  (((l.dropWhile Char.isWhitespace).reverse.dropWhile Char.isWhitespace).reverse)

/-- Split of a character list on a separator character. -/
def splitOnChar (c : Char) : List Char → List (List Char)
  | [] => [[]]
  | a :: t =>
    let r := splitOnChar c t
    if a = c then [] :: r
    else
      match r with
      | [] => [[a]]
      | h :: t2 => (a :: h) :: t2

/-- Embedding of Python int(s) on a string: optional sign, then digits. -/
def parseIntStr (s : String) : Option ℤ :=
  match trimChars s.data with
  | '-' :: r => if r ≠ [] ∧ allDigits r then some (-(digitsVal r : ℤ)) else none
  | '+' :: r => if r ≠ [] ∧ allDigits r then some ((digitsVal r : ℤ)) else none
  | r => if r ≠ [] ∧ allDigits r then some ((digitsVal r : ℤ)) else none

/-- Embedding of the finite-decimal part of Python float(s): digits with an
optional single decimal point, at least one digit overall. -/
def parseDecimal (l : List Char) : Option ℚ :=
  match splitOnChar '.' l with
  | [ip] =>
      if ip ≠ [] ∧ allDigits ip then some ((digitsVal ip : ℚ)) else none
  | [ip, fp] =>
      if (ip ≠ [] ∨ fp ≠ []) ∧ allDigits ip ∧ allDigits fp then
        some ((digitsVal ip : ℚ) + (digitsVal fp : ℚ) / (10 ^ fp.length : ℚ))
      else none
  | _ => none

/-- Embedding of Python float(s) on a string: optional sign and decimal
number, or the special spellings of nan and infinity. -/
def parseFloatStr (s : String) : Option PyFloat :=
  let t := trimChars s.data
  let low := t.map Char.toLower
  if low = "nan".data ∨ low = "+nan".data ∨ low = "-nan".data then some .nan
  else if low = "inf".data ∨ low = "+inf".data ∨ low = "infinity".data
      ∨ low = "+infinity".data then some .inf
  else if low = "-inf".data ∨ low = "-infinity".data then some .ninf
  else
    match t with
    | '-' :: r => (parseDecimal r).map (fun q => .fin (-q))
    | '+' :: r => (parseDecimal r).map .fin
    | r => (parseDecimal r).map .fin

/-- Truncation toward zero, as Python int(float) does. -/
def ratTrunc (q : ℚ) : ℤ := if 0 ≤ q then ⌊q⌋ else ⌈q⌉

/-- Embedding of Python int(v): succeeds on ints, finite floats (truncating)
and integer-looking strings; raises (none) on nan, inf and other objects. -/
def pyToInt : PyVal → Option ℤ
  | .pint i => some i
  | .pfloat q => some (ratTrunc q)
  | .pnan => none
  | .pinf => none
  | .pstr s => parseIntStr s
  | .pnone => none

/-- Embedding of Python float(v): succeeds on numbers and parsable strings;
raises (none) on other objects. -/
def pyToFloat : PyVal → Option PyFloat
  | .pint i => some (.fin (i : ℚ))
  | .pfloat q => some (.fin q)
  | .pnan => some .nan
  | .pinf => some .inf
  | .pstr s => parseFloatStr s
  | .pnone => none

/-- Embedding of Python equality between dynamic values, as numpy elementwise
equality uses it: cross-type numeric equality, nan unequal to everything. -/
def pyEq : PyVal → PyVal → Bool
  | .pint a, .pint b => decide (a = b)
  | .pint a, .pfloat b => decide ((a : ℚ) = b)
  | .pfloat a, .pint b => decide (a = (b : ℚ))
  | .pfloat a, .pfloat b => decide (a = b)
  | .pinf, .pinf => true
  | .pstr a, .pstr b => decide (a = b)
  | .pnone, .pnone => true
  | _, _ => false

/-- Comparison p greater-or-equal c used by the quality banding on a Python
float: nan compares false, inf compares true. -/
def pyGe (p : PyFloat) (c : ℚ) : Bool :=
  match p with
  | .fin q => decide (c ≤ q)
  | .nan => false
  | .inf => true
  | .ninf => false

/-- Embedding of Python round-half-to-even on a finite float. -/
def pyRound (q : ℚ) : ℤ :=
  let f := ⌊q⌋
  let r := q - (f : ℚ)
  if r < 1/2 then f
  else if 1/2 < r then f + 1
  else if f % 2 = 0 then f else f + 1

/-- Regression path of MLPredictor.predict, line 285: the raw model output is
rounded and clamped into the integer range [3, 9]. -/
def regPrediction (raw : ℚ) : ℤ := max 3 (min 9 (pyRound raw))

/-- Regression path of MLPredictor.predict, lines 287-295: confidence from
the distance of the raw output to the nearest bound of [3, 9], clamped. -/
def regConfidence (raw : ℚ) : ℚ :=
  let rangeSize : ℚ := 9 - 3
  let distanceFromBounds : ℚ := min |raw - 3| |raw - 9|
  let c := 1 - distanceFromBounds / rangeSize
  max (1/2) (min (99/100) c)

/-- Regression path of MLPredictor.predict, line 298: probability of a good
wine is binary on the clamped estimate. -/
def regProbGood (raw : ℚ) : ℚ := if 6 ≤ regPrediction raw then 1 else 0

/-- Quality banding of MLPredictor.predict, lines 362-370. -/
def qualityLabel (p : PyFloat) : String :=
  if pyGe p 8 then "Excellent"
  else if pyGe p (13/2) then "Above Average"
  else if pyGe p 5 then "Average"
  else "Below Average"

/-- State of the loaded label-decoder artifact after _load_models: either the
_SimpleLabelEncoder wrapper around an ndarray of classes (the only
inverse_transform implementation in this repository), a plain raw list of
classes without inverse_transform, or absent (None). -/
inductive EncoderState where
  | simple (classes : List PyVal)
  | rawList (classes : List PyVal)
  | absent
deriving DecidableEq, Repr

/-- Embedding of indexing classes[i] on a numpy array or Python list:
negative indices wrap once, out-of-range raises (none). -/
def npIndex (classes : List PyVal) (i : ℤ) : Option PyVal :=
  let n : ℤ := classes.length
  if 0 ≤ i ∧ i < n then classes[i.toNat]?
  else if -n ≤ i ∧ i < 0 then classes[(i + n).toNat]?
  else none

/-- Embedding of _SimpleLabelEncoder.inverse_transform (ml_service.py lines
145-162) on one value: try int(v) and index into the class array; on any
failure try a value match against the classes (first match wins); on any
failure return the input unchanged. Total by construction. -/
def simpleInverseTransform (classes : List PyVal) (v : PyVal) : PyVal :=
  match (pyToInt v).bind (npIndex classes) with
  | some c => c
  | none =>
    match classes.find? (fun c => pyEq c v) with
    | some c => c
    | none => v

/-- Decoding of the encoded class prediction in MLPredictor.predict, lines
316-333: inverse_transform when available, raw-list indexing with the raw
value as fallback, or passthrough when the decoder is absent. -/
def decodePredict (enc : EncoderState) (v : PyVal) : PyVal :=
  match enc with
  | .simple classes => simpleInverseTransform classes v
  | .rawList classes =>
      match (pyToInt v).bind (npIndex classes) with
      | some c => c
      | none => v
  | .absent => v

/-- Fallback mapping of a decoded label to a numeric estimate in
MLPredictor.predict, lines 335-344: float(decoded) when that succeeds,
otherwise a fixed string table with default 4.0, and 4.0 for any other
non-numeric value. -/
def clfNumericEstimate (decoded : PyVal) : PyFloat :=
  match pyToFloat decoded with
  | some f => f
  | none =>
    match decoded with
    | .pstr s =>
        .fin (if s = "Bad" then 4 else if s = "Average" then 5
              else if s = "Good" then 7 else if s = "Excellent" then 8 else 4)
    | _ => .fin 4

/-- Good-class test of MLPredictor.predict, lines 352-354: a label is good
when it is numeric with float value at least 6, or one of the strings Good
and Excellent. -/
def isGoodLabel : PyVal → Bool
  | .pint i => decide ((6 : ℤ) ≤ i)
  | .pfloat q => decide ((6 : ℚ) ≤ q)
  | .pnan => false
  | .pinf => true
  | .pstr s => s == "Good" || s == "Excellent"
  | .pnone => false

/-- Index set summed for probability_good in MLPredictor.predict, lines
350-356: indices of good classes when the decoder exposes classes, otherwise
the indices at least 6 within the probability vector. -/
def goodIndices (enc : EncoderState) (probsLen : ℕ) : List ℕ :=
  match enc with
  | .simple classes =>
      (List.range classes.length).filter (fun i => isGoodLabel (classes.getD i .pnone))
  | _ => (List.range probsLen).filter (fun i => decide (6 ≤ i))

/-- Embedding of Python max over a list, raising (none) on the empty list. -/
def listMax : List ℚ → Option ℚ
  | [] => none
  | a :: t => some (t.foldl max a)

/-- Sum of the probabilities at the given indices, raising (none) when an
index is out of range of the probability vector. -/
def sumAt (probs : List ℚ) (idxs : List ℕ) : Option ℚ :=
  if idxs.all (fun i => decide (i < probs.length)) then
    some ((idxs.map (fun i => probs.getD i 0)).sum)
  else none

/-- Behavior of the loaded best-model estimator on the processed input row:
a regressor (predict but no predict_proba) returning one raw float, or a
classifier returning a probability vector and an encoded class. -/
inductive ModelBehavior where
  | regressor (raw : ℚ)
  | classifier (probs : List ℚ) (encoded : PyVal)
deriving DecidableEq, Repr

/-- Normalized prediction contract returned by MLPredictor.predict. -/
structure PredResult where
  prediction : PyFloat
  confidence : ℚ
  probability_good : ℚ
  quality_label : String
  model_used : String
deriving DecidableEq, Repr

/-- Embedding of the inference steps of MLPredictor.predict (lines 278-381)
after preprocessing, parametrized by the label-decoder state and by what the
estimator returns on the processed row. Returns none when the Python code
raises (empty probability vector, or a good-class index out of range). -/
def predict (enc : EncoderState) (mb : ModelBehavior) : Option PredResult :=
  match mb with
  | .regressor raw =>
      some ⟨.fin ((regPrediction raw : ℤ) : ℚ), regConfidence raw, regProbGood raw,
            qualityLabel (.fin ((regPrediction raw : ℤ) : ℚ)), "Best Model"⟩
  | .classifier probs encoded =>
      match listMax probs with
      | none => none
      | some conf =>
          let decoded := decodePredict enc encoded
          let prediction := clfNumericEstimate decoded
          match sumAt probs (goodIndices enc probs.length) with
          | none => none
          | some pg =>
              some ⟨prediction, conf, pg, qualityLabel prediction, "Best Model"⟩

/-- Canonical 11 underscored API feature names, from
MLPredictor.validate_features lines 517-521. -/
def expected_api_features : List String :=
  ["fixed_acidity", "volatile_acidity", "citric_acid", "residual_sugar",
   "chlorides", "free_sulfur_dioxide", "total_sulfur_dioxide",
   "density", "ph", "sulphates", "alcohol"]

/-- True when the value is a Python int or float instance (nan and inf are
float instances). -/
def isNumericV : PyVal → Bool
  | .pint _ => true
  | .pfloat _ => true
  | .pnan => true
  | .pinf => true
  | _ => false

/-- True when np.isnan(v) or np.isinf(v) holds. -/
def isBadFloatV : PyVal → Bool
  | .pnan => true
  | .pinf => true
  | _ => false

/-- Per-value loop of MLPredictor.validate_features, lines 533-539: the first
non-numeric or nan-or-infinite value fails with a reason. -/
def checkValues : List (String × PyVal) → Bool × Option String
  | [] => (true, none)
  | (k, v) :: rest =>
      if !(isNumericV v) then (false, some ("Feature " ++ k ++ " must be numeric"))
      else if isBadFloatV v then (false, some ("Feature " ++ k ++ " has invalid value"))
      else checkValues rest

/-- Embedding of MLPredictor.validate_features (lines 507-545): missing keys,
then extra keys, then per-value numeric and finiteness checks, in that order.
The feature mapping is a Python dict, modelled as an association list. -/
def validate_features (features : List (String × PyVal)) : Bool × Option String :=
  let keys := features.map Prod.fst
  let missing := expected_api_features.filter (fun f => !(keys.contains f))
  if missing ≠ [] then
    (false, some ("Missing features: " ++ String.intercalate ", " missing))
  else
    let extra := keys.filter (fun f => !(expected_api_features.contains f))
    if extra ≠ [] then
      (false, some ("Unexpected features: " ++ String.intercalate ", " extra))
    else checkValues features

/-- Error message raised by WineFeatures.validate_total_so2
(validators.py line 89). -/
def so2ErrMsg : String := "Total sulfur dioxide must be >= free sulfur dioxide"

/-- Embedding of the pydantic validator WineFeatures.validate_total_so2
(validators.py lines 85-90): values_free is the already-validated free SO2
field when present. -/
def validate_total_so2 (values_free : Option ℚ) (v : ℚ) : Except String ℚ :=
  match values_free with
  | some free => if v < free then .error so2ErrMsg else .ok v
  | none => .ok v

/-- Request-level SO2 validation: pydantic first checks the declared field
bounds (free in [0, 300], total in [0, 500], validators.py lines 48-59), puts
free into values when it passed, then runs validate_total_so2 on total. -/
def so2RequestCheck (free total : ℚ) : Except String ℚ :=
  let values_free := if 0 ≤ free ∧ free ≤ 300 then some free else none
  if 0 ≤ total ∧ total ≤ 500 then validate_total_so2 values_free total
  else .error "total_sulfur_dioxide out of range"

/-- Per-model result record of get_all_predictions (ModelPrediction in
validators.py lines 125-130); the prediction field keeps the raw decoded
Python value handed to the record. -/
structure ModelPrediction where
  model_name : String
  prediction : PyVal
  confidence : ℚ
  probability_good : ℚ
deriving DecidableEq, Repr

/-- Behavior of one registered model inside get_all_predictions: either both
predict and predict_proba succeed on the scaled row, or some step raises
(for example a regressor without predict_proba). -/
inductive GapModel where
  | ok (probs : List ℚ) (encoded : PyVal)
  | fails
deriving DecidableEq, Repr

/-- Decoding of the encoded class in get_all_predictions, lines 432-446:
inverse_transform when available, else list(label_encoder) indexing when the
list is non-empty with the raw value as fallback, else passthrough. -/
def gapDecode (enc : EncoderState) (v : PyVal) : PyVal :=
  match enc with
  | .simple classes => simpleInverseTransform classes v
  | .rawList classes =>
      if classes = [] then v
      else
        match (pyToInt v).bind (npIndex classes) with
        | some c => c
        | none => v
  | .absent => v

/-- Body of the per-model loop of get_all_predictions (lines 425-466): any
exception inside the loop body, including a failing model call or max over an
empty probability vector, is replaced by the Unknown sentinel. -/
def gapPerModel (enc : EncoderState) (name : String) (m : GapModel) : ModelPrediction :=
  match m with
  | .fails => ⟨name, .pstr "Unknown", 0, 0⟩
  | .ok probs encoded =>
      match listMax probs with
      | none => ⟨name, .pstr "Unknown", 0, 0⟩
      | some conf =>
          let pred := gapDecode enc encoded
          let pg := if 1 < probs.length then probs.getD 1 0 else 0
          ⟨name, pred, conf, pg⟩

/-- Embedding of MLPredictor.get_all_predictions after scaling: one result
per registered model, in registry order. -/
def get_all_predictions (enc : EncoderState)
    (models : List (String × GapModel)) : List ModelPrediction :=
  models.map fun p => gapPerModel enc p.1 p.2

/-- Membership of a finite float prediction in the wine-quality range [3, 9]. -/
def inRange39 : PyFloat → Prop
  | .fin q => 3 ≤ q ∧ q ≤ 9
  | _ => False

/-- Occurrence of sub as a contiguous substring, on character lists; used to
state that an error message names a quantity. -/
def containsSub (sub : List Char) : List Char → Bool
  | [] => sub.isEmpty
  | c :: t => sub.isPrefixOf (c :: t) || containsSub sub t

instance : DecidablePred inRange39 := fun p => by
  cases p <;> simp [inRange39] <;> infer_instance

section Lemmas

/-- Folding max over a list yields an element of the extended list that
bounds the seed and every element. -/
theorem foldl_max_spec (t : List ℚ) : ∀ a : ℚ,
    t.foldl max a ∈ a :: t ∧ a ≤ t.foldl max a ∧ ∀ x ∈ t, x ≤ t.foldl max a := by
  induction t with
  | nil => intro a; refine ⟨by simp, le_refl a, by simp⟩
  | cons b t ih =>
    intro a
    obtain ⟨hmem, hle, hall⟩ := ih (max a b)
    have hfold : (b :: t).foldl max a = t.foldl max (max a b) := rfl
    refine ⟨?_, ?_, ?_⟩
    · rw [hfold]
      rcases List.mem_cons.1 hmem with h | h
      · rw [h]
        rcases max_choice a b with hc | hc <;> rw [hc] <;> simp
      · simp [List.mem_cons.2 (Or.inr h)]
    · rw [hfold]
      exact le_trans (le_max_left a b) hle
    · intro x hx
      rw [hfold]
      rcases List.mem_cons.1 hx with rfl | hx2
      · exact le_trans (le_max_right a _) hle
      · exact hall x hx2

/-- A successful listMax is a member of the list and an upper bound of it. -/
theorem listMax_spec (l : List ℚ) (m : ℚ) (h : listMax l = some m) :
    m ∈ l ∧ ∀ x ∈ l, x ≤ m := by
  cases l with
  | nil => simp [listMax] at h
  | cons a t =>
    obtain ⟨hmem, hle, hall⟩ := foldl_max_spec t a
    simp only [listMax, Option.some.injEq] at h
    subst h
    exact ⟨hmem, by intro x hx; rcases List.mem_cons.1 hx with rfl | hx
                    exacts [hle, hall x hx]⟩

/-- Summing positional lookups over all positions gives the list sum. -/
theorem sum_range_getD (l : List ℚ) :
    (∑ i in Finset.range l.length, l.getD i 0) = l.sum := by
  induction l with
  | nil => simp
  | cons a t ih =>
    rw [List.length_cons, Finset.sum_range_succ']
    simp only [List.getD_cons_succ, List.getD_cons_zero]
    rw [ih, List.sum_cons, add_comm]

/-- A successful sumAt over pairwise-distinct indices of a nonnegative list
is nonnegative and bounded by the full sum. -/
theorem sumAt_bounds (probs : List ℚ) (idxs : List ℕ) (s : ℚ)
    (hnd : idxs.Nodup) (hpos : ∀ p ∈ probs, 0 ≤ p)
    (h : sumAt probs idxs = some s) : 0 ≤ s ∧ s ≤ probs.sum := by
  unfold sumAt at h
  have hval : ∀ i, 0 ≤ probs.getD i 0 := by
    intro i
    by_cases hlen : i < probs.length
    · rw [List.getD_eq_getElem _ _ hlen]
      exact hpos _ (List.getElem_mem hlen)
    · rw [List.getD_eq_default _ _ (not_lt.1 hlen)]
  by_cases hall : idxs.all (fun i => decide (i < probs.length)) = true
  · rw [if_pos hall, Option.some.injEq] at h
    subst h
    constructor
    · apply List.sum_nonneg
      intro x hx
      obtain ⟨i, hi, rfl⟩ := List.mem_map.1 hx
      exact hval i
    · have hset : (idxs.map fun i => probs.getD i 0).sum
          = ∑ i in idxs.toFinset, probs.getD i 0 :=
        (List.sum_toFinset _ hnd).symm
      rw [hset, ← sum_range_getD probs]
      apply Finset.sum_le_sum_of_subset_of_nonneg
      · intro i hi
        rw [Finset.mem_range]
        have := List.all_eq_true.1 hall i (List.mem_toFinset.1 hi)
        exact of_decide_eq_true this
      · intro i hi _
        exact hval i
  · rw [if_neg hall] at h
    exact absurd h (by simp)

/-- The good-class index set is pairwise distinct. -/
theorem goodIndices_nodup (enc : EncoderState) (n : ℕ) :
    (goodIndices enc n).Nodup := by
  cases enc <;> exact (List.nodup_range _).filter _

/-- The decode step of get_all_predictions computes the same decoded value
as the decode step of predict, on every decoder state. -/
theorem gapDecode_eq_decodePredict (enc : EncoderState) (v : PyVal) :
    gapDecode enc v = decodePredict enc v := by
  cases enc with
  | simple classes => rfl
  | absent => rfl
  | rawList classes =>
    cases classes with
    | nil =>
      simp only [gapDecode, decodePredict, npIndex, if_pos rfl]
      cases h : pyToInt v <;> simp [npIndex]
    | cons a t => rfl

/-- Bounds of the clamped regression confidence. -/
theorem regConfidence_bounds (raw : ℚ) :
    1/2 ≤ regConfidence raw ∧ regConfidence raw ≤ 99/100 := by
  unfold regConfidence
  exact ⟨le_max_left _ _, max_le (by norm_num) (min_le_left _ _)⟩

/-- Characterization of the per-value loop of validate_features: success is
equivalent to every value being finite numeric, success carries no reason,
and failure carries a reason. -/
theorem checkValues_spec (l : List (String × PyVal)) :
    ((checkValues l).1 = true ↔
      ∀ p ∈ l, isNumericV p.2 = true ∧ isBadFloatV p.2 = false)
    ∧ ((checkValues l).1 = true → (checkValues l).2 = none)
    ∧ ((checkValues l).1 = false → (checkValues l).2.isSome = true) := by
  induction l with
  | nil => simp [checkValues]
  | cons kv rest ih =>
    obtain ⟨k, v⟩ := kv
    obtain ⟨ih1, ih2, ih3⟩ := ih
    by_cases h1 : isNumericV v = true
    · by_cases h2 : isBadFloatV v = true
      · refine ⟨?_, ?_, ?_⟩
        · simp [checkValues, h1, h2]
        · simp [checkValues, h1, h2]
        · simp [checkValues, h1, h2]
      · have h2f : isBadFloatV v = false := by
          cases hb : isBadFloatV v
          · rfl
          · exact absurd hb h2
        have hred : checkValues ((k, v) :: rest) = checkValues rest := by
          simp [checkValues, h1, h2f]
        rw [hred]
        refine ⟨?_, ih2, ih3⟩
        rw [ih1, List.forall_mem_cons]
        constructor
        · intro h
          exact ⟨⟨h1, h2f⟩, h⟩
        · rintro ⟨-, h⟩
          exact h
    · have h1f : isNumericV v = false := by
        cases hb : isNumericV v
        · rfl
        · exact absurd hb h1
      refine ⟨?_, ?_, ?_⟩
      · simp [checkValues, h1f]
      · simp [checkValues, h1f]
      · simp [checkValues, h1f]

end Lemmas

section ClaimTheorems

/-- C2: on the regression path, the returned confidence is exactly
1 - min(|raw - 3|, |raw - 9|) / 6 clamped into [0.5, 0.99], and the returned
probability_good is 1.0 exactly when the rounded-and-clamped estimate is at
least 6, else 0.0. -/
theorem reg_confidence_probgood_formula (r : ℚ) :
    regConfidence r = max (1/2) (min (99/100) (1 - (min |r - 3| |r - 9|) / 6))
    ∧ regProbGood r = (if 6 ≤ max 3 (min 9 (pyRound r)) then (1 : ℚ) else 0) := by
  constructor
  · unfold regConfidence
    norm_num
  · rfl

/-- C3 counterexample: the raw output 6 is farther from the nearest bound of
[3, 9] than the raw output 3, yet its reported confidence is strictly lower
(0.5 against 0.99), so center predictions are reported as less confident than
edge predictions. -/
theorem reg_confidence_center_cex :
    min |(6:ℚ) - 3| |(6:ℚ) - 9| > min |(3:ℚ) - 3| |(3:ℚ) - 9|
    ∧ regConfidence 6 = 1/2 ∧ regConfidence 3 = 99/100
    ∧ ¬ (regConfidence 3 ≤ regConfidence 6) := by
  refine ⟨by norm_num, by norm_num [regConfidence], by norm_num [regConfidence],
    by norm_num [regConfidence]⟩

/-- C3 amended: on the regression path confidence is antitone in the distance
of the raw output to the nearest bound of [3, 9]: a raw output farther from
the nearest bound gets lower-or-equal confidence, strictly lower at raw 6
against raw 3. -/
theorem reg_confidence_antitone :
    (∀ r1 r2 : ℚ, min |r2 - 3| |r2 - 9| ≤ min |r1 - 3| |r1 - 9| →
        regConfidence r1 ≤ regConfidence r2)
    ∧ regConfidence 6 < regConfidence 3 := by
  constructor
  · intro r1 r2 h
    simp only [regConfidence]
    have h9 : (9:ℚ) - 3 = 6 := by norm_num
    have key : 1 - min |r1 - 3| |r1 - 9| / (9 - 3)
        ≤ 1 - min |r2 - 3| |r2 - 9| / (9 - 3) := by
      rw [h9]; linarith
    exact max_le_max le_rfl (min_le_min le_rfl key)
  · norm_num [regConfidence]

/-- C3 amended witness: raw 6 is at distance 3 from the nearest bound, raw
4.5 at distance 1.5, and the confidence at 6 is at most the confidence at
4.5. -/
theorem reg_confidence_antitone_witness :
    min |(9/2:ℚ) - 3| |(9/2:ℚ) - 9| ≤ min |(6:ℚ) - 3| |(6:ℚ) - 9|
    ∧ regConfidence 6 ≤ regConfidence (9/2) :=
  ⟨by norm_num [min_le_iff, le_min_iff, abs_le],
   reg_confidence_antitone.1 6 (9/2) (by norm_num [min_le_iff, le_min_iff, abs_le])⟩

/-- C4: the quality band is a pure function of the numeric estimate with
inclusive lower bounds 8, 6.5 and 5, checked also on the boundary values and
on the sample estimates 8.0, 7.0, 5.5 and 4.0. -/
theorem quality_banding (q : ℚ) :
    qualityLabel (.fin q) =
      (if 8 ≤ q then "Excellent" else if 13/2 ≤ q then "Above Average"
       else if 5 ≤ q then "Average" else "Below Average")
    ∧ qualityLabel (.fin 8) = "Excellent"
    ∧ qualityLabel (.fin (13/2)) = "Above Average"
    ∧ qualityLabel (.fin 5) = "Average"
    ∧ qualityLabel (.fin 7) = "Above Average"
    ∧ qualityLabel (.fin (11/2)) = "Average"
    ∧ qualityLabel (.fin 4) = "Below Average" := by
  refine ⟨?_, by norm_num [qualityLabel, pyGe], by norm_num [qualityLabel, pyGe],
    by norm_num [qualityLabel, pyGe], by norm_num [qualityLabel, pyGe],
    by norm_num [qualityLabel, pyGe], by norm_num [qualityLabel, pyGe]⟩
  simp only [qualityLabel, pyGe, decide_eq_true_eq]

/-- C5: validate_features returns valid exactly when the key set equals the
canonical 11 underscored feature names and every value is numeric and
neither nan nor infinite; it is a total function (never raises), and it
returns a reason exactly when it returns invalid. -/
theorem validate_features_spec (features : List (String × PyVal)) :
    (((validate_features features).1 = true) ↔
      ((∀ k, k ∈ features.map Prod.fst ↔ k ∈ expected_api_features)
        ∧ ∀ p ∈ features, isNumericV p.2 = true ∧ isBadFloatV p.2 = false))
    ∧ (((validate_features features).1 = false)
        ↔ (validate_features features).2.isSome = true) := by
  obtain ⟨cv1, cv2, cv3⟩ := checkValues_spec features
  by_cases hmiss :
      expected_api_features.filter
        (fun f => !((features.map Prod.fst).contains f)) = []
  · by_cases hext :
        (features.map Prod.fst).filter
          (fun f => !(expected_api_features.contains f)) = []
    · have hvf : validate_features features = checkValues features := by
        simp only [validate_features]
        rw [if_neg (not_ne_iff.2 hmiss), if_neg (not_ne_iff.2 hext)]
      have hmem : ∀ k, k ∈ features.map Prod.fst ↔ k ∈ expected_api_features := by
        intro k
        constructor
        · intro hk
          by_contra hnot
          have hk2 : k ∈ (features.map Prod.fst).filter
              (fun f => !(expected_api_features.contains f)) :=
            List.mem_filter.2 ⟨hk, by simp [List.elem_iff, hnot]⟩
          rw [hext] at hk2
          exact absurd hk2 (List.not_mem_nil k)
        · intro he
          by_contra hnot
          have he2 : k ∈ expected_api_features.filter
              (fun f => !((features.map Prod.fst).contains f)) :=
            List.mem_filter.2 ⟨he, by simp [List.elem_iff, hnot]⟩
          rw [hmiss] at he2
          exact absurd he2 (List.not_mem_nil k)
      rw [hvf]
      constructor
      · rw [cv1]
        constructor
        · intro h
          exact ⟨hmem, h⟩
        · rintro ⟨-, h⟩
          exact h
      · constructor
        · exact cv3
        · intro hsome
          cases hcv : (checkValues features).1 with
          | false => rfl
          | true =>
            rw [cv2 hcv] at hsome
            simp at hsome
    · obtain ⟨k, hk⟩ := List.exists_mem_of_ne_nil _ hext
      obtain ⟨hkmem, hkp⟩ := List.mem_filter.1 hk
      have hknot : k ∉ expected_api_features := by
        intro hc
        have hce : expected_api_features.contains k = true := List.elem_iff.2 hc
        rw [hce] at hkp
        exact Bool.noConfusion hkp
      have hvf : (validate_features features).1 = false
          ∧ (validate_features features).2.isSome = true := by
        simp only [validate_features]
        rw [if_neg (not_ne_iff.2 hmiss), if_pos hext]
        exact ⟨rfl, rfl⟩
      constructor
      · rw [hvf.1]
        simp only [Bool.false_eq_true, false_iff]
        rintro ⟨hm, -⟩
        exact hknot ((hm k).1 hkmem)
      · rw [hvf.1, hvf.2]
        simp
  · obtain ⟨k, hk⟩ := List.exists_mem_of_ne_nil _ hmiss
    obtain ⟨hkmem, hkp⟩ := List.mem_filter.1 hk
    have hknot : k ∉ features.map Prod.fst := by
      intro hc
      have hce : (features.map Prod.fst).contains k = true := List.elem_iff.2 hc
      rw [hce] at hkp
      exact Bool.noConfusion hkp
    have hvf : (validate_features features).1 = false
        ∧ (validate_features features).2.isSome = true := by
      simp only [validate_features]
      rw [if_pos hmiss]
      exact ⟨rfl, rfl⟩
    constructor
    · rw [hvf.1]
      simp only [Bool.false_eq_true, false_iff]
      rintro ⟨hm, -⟩
      exact hknot ((hm k).2 hkmem)
    · rw [hvf.1, hvf.2]
      simp

/-- C5 witness: a one-key feature mapping is invalid and carries a reason,
and a full 11-key numeric mapping is valid. -/
theorem validate_features_spec_witness :
    (validate_features [("x", .pint 1)]).2.isSome = true
    ∧ (validate_features
        (expected_api_features.map (fun k => (k, PyVal.pfloat 1)))).1 = true :=
  ⟨(validate_features_spec [("x", .pint 1)]).2.1 (by decide),
   (validate_features_spec (expected_api_features.map (fun k => (k, PyVal.pfloat 1)))).1.2
     ⟨by intro k; simp [List.map_map, Function.comp],
      by intro p hp
         obtain ⟨k, hk, rfl⟩ := List.mem_map.1 hp
         exact ⟨rfl, rfl⟩⟩⟩

/-- C6: with free SO2 = 50 and total SO2 = 34 the request-level SO2 check
fails with the message naming both sulfur-dioxide quantities, while free SO2
= total SO2 = 30 passes the check. -/
theorem so2_check_cases :
    so2RequestCheck 50 34 = .error so2ErrMsg
    ∧ containsSub "Total sulfur dioxide".data so2ErrMsg.data = true
    ∧ containsSub "free sulfur dioxide".data so2ErrMsg.data = true
    ∧ so2RequestCheck 30 30 = .ok 30 := by
  refine ⟨rfl, by decide, by decide, rfl⟩

/-- C7: decoding an encoded class never raises and follows the three-tier
order: integer-index lookup into the class array first, then value-match
against the classes, then raw passthrough; for a raw class list the value
check degenerates to returning the raw value, and an absent decoder passes
the raw value through. -/
theorem decode_three_tier (classes : List PyVal) (v : PyVal) :
    (∀ c, (pyToInt v).bind (npIndex classes) = some c →
        simpleInverseTransform classes v = c)
    ∧ ((pyToInt v).bind (npIndex classes) = none →
        (∀ c, classes.find? (fun c => pyEq c v) = some c →
            simpleInverseTransform classes v = c)
        ∧ (classes.find? (fun c => pyEq c v) = none →
            simpleInverseTransform classes v = v))
    ∧ decodePredict .absent v = v
    ∧ (∀ c, (pyToInt v).bind (npIndex classes) = some c →
        decodePredict (.rawList classes) v = c)
    ∧ ((pyToInt v).bind (npIndex classes) = none →
        decodePredict (.rawList classes) v = v) := by
  refine ⟨?_, ?_, rfl, ?_, ?_⟩
  · intro c h
    simp only [simpleInverseTransform, h]
  · intro hnone
    constructor
    · intro c hfind
      simp only [simpleInverseTransform, hnone, hfind]
    · intro hfind
      simp only [simpleInverseTransform, hnone, hfind]
  · intro c h
    simp only [decodePredict, h]
  · intro hnone
    simp only [decodePredict, hnone]

/-- C7 witness: the encoded value 1 resolves by integer-index lookup into a
two-class array. -/
theorem decode_three_tier_witness :
    (pyToInt (.pint 1)).bind (npIndex [.pint 10, .pstr "A"]) = some (.pstr "A")
    ∧ simpleInverseTransform [.pint 10, .pstr "A"] (.pint 1) = .pstr "A" :=
  ⟨by decide, (decode_three_tier [.pint 10, .pstr "A"] (.pint 1)).1 (.pstr "A") (by decide)⟩

/-- C10: whenever the decoded label does not parse as a number, the numeric
estimate comes from the fixed table Bad=4, Average=5, Good=7, Excellent=8
with silent default 4.0 for every other string, and is 4.0 for every
non-string non-parsing value; the estimate 4.0 falls in the Below Average
band. -/
theorem clf_fallback_map (d : PyVal) (h : pyToFloat d = none) :
    (∀ s, d = .pstr s →
        clfNumericEstimate d =
          .fin (if s = "Bad" then 4 else if s = "Average" then 5
                else if s = "Good" then 7 else if s = "Excellent" then 8 else 4))
    ∧ ((∀ s, d ≠ .pstr s) → clfNumericEstimate d = .fin 4)
    ∧ qualityLabel (.fin 4) = "Below Average" := by
  refine ⟨?_, ?_, by norm_num [qualityLabel, pyGe]⟩
  · rintro s rfl
    simp only [clfNumericEstimate, h]
  · intro hs
    cases d with
    | pstr s => exact absurd rfl (hs s)
    | pint i => simp [pyToFloat] at h
    | pfloat q => simp [pyToFloat] at h
    | pnan => simp [pyToFloat] at h
    | pinf => simp [pyToFloat] at h
    | pnone => simp only [clfNumericEstimate, h]

/-- C10 witness: the unrecognized string label Bogus does not parse as a
number and maps to the default estimate. -/
theorem clf_fallback_map_witness :
    pyToFloat (.pstr "Bogus") = none
    ∧ clfNumericEstimate (.pstr "Bogus") =
        .fin (if "Bogus" = "Bad" then 4 else if "Bogus" = "Average" then 5
              else if "Bogus" = "Good" then 7 else if "Bogus" = "Excellent" then 8 else 4) :=
  ⟨by decide, (clf_fallback_map (.pstr "Bogus") (by decide)).1 "Bogus" rfl⟩

/-- C8: get_all_predictions returns exactly one result per registered model,
in registry order, and every model whose prediction raises is represented by
the Unknown/0/0 sentinel instead of shortening the list or propagating. -/
theorem get_all_length_and_sentinel (enc : EncoderState)
    (models : List (String × GapModel)) :
    (get_all_predictions enc models).length = models.length
    ∧ ∀ (i : ℕ) (name : String), models[i]? = some (name, .fails) →
        (get_all_predictions enc models)[i]? =
          some ⟨name, .pstr "Unknown", 0, 0⟩ := by
  constructor
  · simp [get_all_predictions]
  · intro i name h
    simp [get_all_predictions, List.getElem?_map, h, gapPerModel]

/-- C8 witness: a one-model registry whose model raises yields exactly the
sentinel at position 0. -/
theorem get_all_length_and_sentinel_witness :
    ([("M", GapModel.fails)] : List (String × GapModel))[0]? = some ("M", .fails)
    ∧ (get_all_predictions .absent [("M", .fails)])[0]? =
        some ⟨"M", .pstr "Unknown", 0, 0⟩ :=
  ⟨rfl, (get_all_length_and_sentinel .absent [("M", .fails)]).2 0 "M" rfl⟩

/-- C9 counterexample: on a three-class model with classes 4, 5, 7 and
probability vector (0, 0, 1), predict computes probability_good as the sum
over good classes (1), while the per-model loop of get_all_predictions
returns the second probability slot (0), so the per-model result does not
equal what the inference steps of predict produce. -/
theorem gap_vs_predict_cex :
    (predict (.simple [.pfloat 4, .pfloat 5, .pfloat 7])
        (.classifier [0, 0, 1] (.pint 2))).map PredResult.probability_good = some 1
    ∧ (gapPerModel (.simple [.pfloat 4, .pfloat 5, .pfloat 7]) "Best Model"
        (.ok [0, 0, 1] (.pint 2))).probability_good = 0
    ∧ (1 : ℚ) ≠ 0 := by
  refine ⟨?_, rfl, by norm_num⟩
  have h : predict (.simple [.pfloat 4, .pfloat 5, .pfloat 7])
      (.classifier [0, 0, 1] (.pint 2)) =
      some ⟨.fin 7, List.foldl max 0 [0, 1],
            (([2] : List ℕ).map fun i => ([0, 0, 1] : List ℚ).getD i 0).sum,
            qualityLabel (.fin 7), "Best Model"⟩ := rfl
  rw [h]
  simp

/-- C9 amended: the per-model inference of get_all_predictions decodes the
encoded class through the same three-tier decode as predict and reports the
same confidence (the maximal probability), but it always runs the
classification calls with external scaling, has no regression branch, and
sets probability_good to the second probability slot (or 0 for a
single-slot vector) instead of the good-class sum predict uses. -/
theorem gap_second_slot (enc : EncoderState) (probs : List ℚ) (encoded : PyVal)
    (name : String) (r : PredResult)
    (h : predict enc (.classifier probs encoded) = some r) :
    (gapPerModel enc name (.ok probs encoded)).prediction = decodePredict enc encoded
    ∧ (gapPerModel enc name (.ok probs encoded)).confidence = r.confidence
    ∧ (gapPerModel enc name (.ok probs encoded)).probability_good =
        (if 1 < probs.length then probs.getD 1 0 else 0) := by
  cases hm : listMax probs with
  | none =>
    simp only [predict, hm] at h
    exact Option.noConfusion h
  | some conf =>
    cases hs : sumAt probs (goodIndices enc probs.length) with
    | none =>
      simp only [predict, hm, hs] at h
      exact Option.noConfusion h
    | some pg =>
      simp only [predict, hm, hs, Option.some.injEq] at h
      subst h
      refine ⟨?_, ?_, ?_⟩
      · simp only [gapPerModel, hm, gapDecode_eq_decodePredict]
      · simp only [gapPerModel, hm]
      · simp only [gapPerModel, hm]

/-- C9 amended witness: a concrete one-class model where the per-model loop
agrees with the decode and confidence of predict and uses the second-slot
rule for probability_good. -/
theorem gap_second_slot_witness :
    (gapPerModel (.simple [.pfloat 1]) "M" (.ok [1] (.pint 0))).prediction
      = decodePredict (.simple [.pfloat 1]) (.pint 0)
    ∧ (gapPerModel (.simple [.pfloat 1]) "M" (.ok [1] (.pint 0))).confidence = 1
    ∧ (gapPerModel (.simple [.pfloat 1]) "M" (.ok [1] (.pint 0))).probability_good
      = (if 1 < ([1] : List ℚ).length then ([1] : List ℚ).getD 1 0 else 0) :=
  gap_second_slot (.simple [.pfloat 1]) [1] (.pint 0) "M"
    ⟨.fin 1, 1, (([] : List ℕ).map fun i => ([1] : List ℚ).getD i 0).sum,
     qualityLabel (.fin 1), "Best Model"⟩ rfl

/-- C1 counterexample: on the classification path the numeric estimate is
not clamped into [3, 9]: a decoded numeric class 100 with probability vector
(1) is returned as prediction 100; moreover with a malformed probability
vector (2) the returned confidence is 2, outside [0, 1]. -/
theorem predict_range_cex :
    (predict (.simple [.pfloat 100]) (.classifier [1] (.pint 0))).map
        PredResult.prediction = some (.fin 100)
    ∧ ¬ inRange39 (.fin 100)
    ∧ (predict (.simple [.pfloat 100]) (.classifier [2] (.pint 0))).map
        PredResult.confidence = some 2
    ∧ ¬ ((2:ℚ) ≤ 1) := by
  refine ⟨rfl, by decide, rfl, by norm_num⟩

/-- C1 amended: on the regression path the estimate is clamped into [3, 9],
confidence into [0.5, 0.99], and probability_good is 0 or 1; on the
classification path, whenever the probability vector has entries in [0, 1]
summing to at most 1, the returned confidence and probability_good lie in
[0, 1], but the numeric estimate itself is not clamped. -/
theorem predict_bounds (enc : EncoderState) (raw : ℚ) (probs : List ℚ)
    (encoded : PyVal) (r : PredResult) :
    (predict enc (.regressor raw) = some r →
        inRange39 r.prediction ∧ 1/2 ≤ r.confidence ∧ r.confidence ≤ 99/100
        ∧ (r.probability_good = 0 ∨ r.probability_good = 1))
    ∧ ((∀ p ∈ probs, 0 ≤ p ∧ p ≤ 1) → probs.sum ≤ 1 →
        predict enc (.classifier probs encoded) = some r →
        0 ≤ r.confidence ∧ r.confidence ≤ 1
        ∧ 0 ≤ r.probability_good ∧ r.probability_good ≤ 1) := by
  constructor
  · intro h
    simp only [predict, Option.some.injEq] at h
    subst h
    refine ⟨?_, (regConfidence_bounds raw).1, (regConfidence_bounds raw).2, ?_⟩
    · have h3 : (3:ℤ) ≤ regPrediction raw := le_max_left _ _
      have h9 : regPrediction raw ≤ (9:ℤ) := max_le (by norm_num) (min_le_left _ _)
      exact ⟨by exact_mod_cast h3, by exact_mod_cast h9⟩
    · unfold regProbGood
      split_ifs <;> simp
  · intro hp hsum h
    cases hm : listMax probs with
    | none =>
      simp only [predict, hm] at h
      exact Option.noConfusion h
    | some conf =>
      cases hs : sumAt probs (goodIndices enc probs.length) with
      | none =>
        simp only [predict, hm, hs] at h
        exact Option.noConfusion h
      | some pg =>
        simp only [predict, hm, hs, Option.some.injEq] at h
        subst h
        obtain ⟨hmem, -⟩ := listMax_spec probs conf hm
        have hpos : ∀ p ∈ probs, 0 ≤ p := fun p h2 => (hp p h2).1
        obtain ⟨hpg0, hpgle⟩ := sumAt_bounds probs _ pg
          (goodIndices_nodup enc probs.length) hpos hs
        exact ⟨(hp conf hmem).1, (hp conf hmem).2, hpg0, le_trans hpgle hsum⟩

/-- C1 amended witness: the regression bounds at raw output 7, and the
classification bounds on a one-class model with probability vector (1). -/
theorem predict_bounds_witness :
    (inRange39 (.fin ((regPrediction 7 : ℤ) : ℚ))
      ∧ 1/2 ≤ regConfidence 7 ∧ regConfidence 7 ≤ 99/100
      ∧ (regProbGood 7 = 0 ∨ regProbGood 7 = 1))
    ∧ (0 ≤ (1:ℚ) ∧ (1:ℚ) ≤ 1 ∧ 0 ≤ (0:ℚ) ∧ (0:ℚ) ≤ 1) := by
  constructor
  · exact (predict_bounds .absent 7 [] .pnone
      ⟨.fin ((regPrediction 7 : ℤ) : ℚ), regConfidence 7, regProbGood 7,
       qualityLabel (.fin ((regPrediction 7 : ℤ) : ℚ)), "Best Model"⟩).1 rfl
  · exact (predict_bounds .absent 0 [1] (.pint 0)
      ⟨.fin ((0 : ℤ) : ℚ), 1,
       (([] : List ℕ).map fun i => ([1] : List ℚ).getD i 0).sum,
       qualityLabel (.fin ((0 : ℤ) : ℚ)), "Best Model"⟩).2
      (by intro p hp; simp at hp; subst hp; norm_num) (by simp) rfl

end ClaimTheorems

end WinePred
